import Mathlib

/-!
Verification development for the affiliate swap monitoring and aggregation
core of uswap-zero: a shallow embedding of the Go source (explorer client,
fee/label resolver, log filter, notifier helpers) together with models of
the components the spec describes (cursor store / poller, bounded log ring),
and theorems settling the specification claims against them.

Go machine floats (`float64` USD amounts) are embedded as exact rationals,
Go `int`/`int64` as `Int`, and Go strings as Lean `String` (ASCII-faithful
case mapping).
-/

namespace USwap

/-! ### Go string primitives -/

/-- Go `strings.ToLower` (ASCII-faithful model). -/
def goLower (s : String) : String := ⟨s.data.map Char.toLower⟩

/-- Go `strings.ToUpper` (ASCII-faithful model). -/
def goUpper (s : String) : String := ⟨s.data.map Char.toUpper⟩

/-- Predicate `leadsWith needle hay`: true when `needle` occurs at the start of `hay`. -/
def leadsWith : List Char → List Char → Bool
  | [], _ => true
  | _ :: _, [] => false
  | a :: as, b :: bs => a == b && leadsWith as bs

/-- Predicate `hasSub needle hay`: true when `needle` occurs contiguously inside `hay`. -/
def hasSub (needle : List Char) : List Char → Bool
  | [] => needle.isEmpty
  | b :: bs => leadsWith needle (b :: bs) || hasSub needle bs

/-- Go `strings.Contains(hay, needle)`. -/
def strContains (hay needle : String) : Bool := hasSub needle.data hay.data

/-- Go `strings.EqualFold` (ASCII simple-fold model). -/
def equalFold (a b : String) : Bool := goLower a == goLower b

/-- Split a character list around the first occurrence of `c`, if any.
Mirrors Go `strings.SplitN(s, string(c), 2)` producing two parts. -/
def splitFirst (c : Char) : List Char → Option (List Char × List Char)
  | [] => none
  | x :: xs =>
    if x == c then some ([], xs)
    else
      match splitFirst c xs with
      | none => none
      | some (a, b) => some (x :: a, b)

/-- Everything before the first occurrence of `c` (the whole list if `c` is
absent); this is `strings.SplitN(s, string(c), n)[0]` in Go. -/
def upToChar (c : Char) (l : List Char) : List Char :=
  match splitFirst c l with
  | some p => p.1
  | none => l

/-- Go `strings.Replace(s, old, new, 1)`: replace the first occurrence of the
(non-empty) pattern `old` by `new`. -/
def replaceFirstL (old new : List Char) : List Char → List Char
  | [] => []
  | x :: xs =>
    if leadsWith old (x :: xs) then new ++ (x :: xs).drop old.length
    else x :: replaceFirstL old new xs

/-- Go `strings.Replace(s, old, new, 1)` on strings. -/
def replaceFirst (s old new : String) : String :=
  ⟨replaceFirstL old.data new.data s.data⟩

/-! ### Data model (`explorer.go`) -/

/-- Embedding of `ExplorerAppFee` from `explorer.go`: one fee-schedule entry, `fee` is in
basis points. -/
structure ExplorerAppFee where
  recipient : String
  fee : Int
  deriving DecidableEq, Repr

/-- Embedding of `ExplorerTx` from `explorer.go`: one settled transaction as returned by
the explorer API. USD amounts are embedded as exact rationals. -/
structure ExplorerTx where
  depositAddress : String
  depositMemo : String
  recipient : String
  status : String
  amountInFormatted : String
  amountOutFormatted : String
  amountInUsd : ℚ
  amountOutUsd : ℚ
  originAsset : String
  destinationAsset : String
  senders : List String
  nearTxHashes : List String
  originChainTxHashes : List String
  destinationChainTxHashes : List String
  appFees : List ExplorerAppFee
  createdAt : String
  createdAtTimestamp : Int
  deriving DecidableEq, Repr

/-- Modelled from the spec: a known-token catalog record (the token-pricing
and network-listing catalog is outside the monitored core's sources; only the
fields read by the label resolver are modelled). -/
structure TokenInfo where
  defuseAssetID : String
  ticker : String
  chainName : String
  deriving DecidableEq, Repr

/-- Modelled from the spec: `findTokenByAssetID` looks the known-token table
up by exact asset identifier, returning the first record whose identifier
matches, if any. -/
def findTokenByAssetID (table : List TokenInfo) (assetID : String) : Option TokenInfo :=
  table.find? (fun t => t.defuseAssetID == assetID)

/-- The static chain code → display-name table of `explorerChainName`
(`explorer.go`). -/
def chainNameTable : List (String × String) :=
  [("eth", "Ethereum"), ("btc", "Bitcoin"), ("sol", "Solana"), ("base", "Base"),
   ("arb", "Arbitrum"), ("ton", "TON"), ("tron", "TRON"), ("trx", "TRON"),
   ("bsc", "BNB Chain"), ("pol", "Polygon"), ("op", "Optimism"),
   ("avax", "Avalanche"), ("near", "NEAR"), ("sui", "Sui"),
   ("doge", "Dogecoin"), ("ltc", "Litecoin"), ("xrp", "XRP"),
   ("bch", "Bitcoin Cash"), ("xlm", "Stellar"), ("nep141", "NEAR")]

/-- Embedding of `explorerChainName` from `explorer.go`: display name for a lowercased
chain code, defaulting to the uppercased code. -/
def explorerChainName (code : String) : String :=
  match chainNameTable.find? (fun kv => kv.1 == goLower code) with
  | some kv => kv.2
  | none => goUpper code

/-- The summed basis points of a transaction's fee schedule (the `bps`
accumulation loop of `txFeeUSD`). -/
def sumBps (tx : ExplorerTx) : Int :=
  tx.appFees.foldl (fun acc f => acc + f.fee) 0

/-- Embedding of `txFeeUSD` from `explorer.go`: USD fee taken from a transaction via its
`appFees` basis points. -/
def txFeeUSD (tx : ExplorerTx) : ℚ :=
  let bps := sumBps tx
  if bps = 0 ∨ tx.amountInUsd = 0 then 0
  else tx.amountInUsd * (bps : ℚ) / 10000

/-- The fallback branch of `txTokenLabel` (`explorer.go`) when the token
table misses or has an empty ticker: uppercased namespace before `:` unless
it is `nep141`, in which case the uppercased ticker segment before the first
`.` of the part after `:`; with no `:`, the whole identifier uppercased. -/
def tokenLabelHeur (assetID : String) : String :=
  match splitFirst ':' assetID.data with
  | some (p, rest) =>
    if (p.map Char.toUpper) ≠ "NEP141".data then ⟨p.map Char.toUpper⟩
    else ⟨(upToChar '.' rest).map Char.toUpper⟩
  | none => goUpper assetID

/-- Embedding of `txTokenLabel` from `explorer.go`: token symbol for a defuse asset ID. -/
def txTokenLabel (table : List TokenInfo) (assetID : String) : String :=
  match findTokenByAssetID table assetID with
  | some t => if t.ticker ≠ "" then t.ticker else tokenLabelHeur assetID
  | none => tokenLabelHeur assetID

/-- The fallback branch of `txChainLabel` (`explorer.go`): chain display name
from the part before the first `:` (Go `SplitN` always yields at least one
part, so the trailing `return assetID` in the source is unreachable). -/
def chainLabelHeur (assetID : String) : String :=
  explorerChainName ⟨upToChar ':' assetID.data⟩

/-- Embedding of `txChainLabel` from `explorer.go`: display chain name for a defuse asset
ID. -/
def txChainLabel (table : List TokenInfo) (assetID : String) : String :=
  match findTokenByAssetID table assetID with
  | some t => if t.chainName ≠ "" then explorerChainName t.chainName else chainLabelHeur assetID
  | none => chainLabelHeur assetID

/-! ### Transaction source client (`explorer.go`: `explorerGet`, `fetchExplorerTxs`)

The network is embedded as an oracle value describing the single HTTP
exchange a call performs: either the request/read fails, or a response with
a status code and a body arrives. The body is abstracted at the granularity
`json.Unmarshal` sees it: malformed, or a decoded page of transactions. -/

/-- The body of an explorer HTTP response, as seen by `json.Unmarshal`. -/
inductive ExplorerBody where
  | malformed
  | page (txs : List ExplorerTx)
  deriving DecidableEq, Repr

/-- Outcome of the one HTTP exchange performed by `explorerGet`: a transport
failure (request error or body-read error), or a response. -/
inductive HttpOutcome where
  | netFail (msg : String)
  | response (status : Int) (body : ExplorerBody)
  deriving DecidableEq, Repr

/-- Embedding of `explorerGet` from `explorer.go`: propagates a transport failure, errors
on a status code outside 2xx, and otherwise hands the body back. -/
def explorerGet (o : HttpOutcome) : Except String ExplorerBody :=
  match o with
  | .netFail m => .error m
  | .response st body =>
    if st < 200 ∨ 300 ≤ st then .error ("explorer " ++ toString st)
    else .ok body

/-- The query parameters assembled by `fetchExplorerTxs` (`explorer.go`),
as set on the Go `url.Values` before encoding. -/
def fetchExplorerQuery (affiliate lastAddr lastMemo : String) (count : Int) :
    List (String × String) :=
  [("affiliate", affiliate), ("statuses", "SUCCESS"),
   ("numberOfTransactions", toString count), ("direction", "next")] ++
  (if lastAddr ≠ "" then
     [("lastDepositAddress", lastAddr)] ++
     (if lastMemo ≠ "" then [("lastDepositMemo", lastMemo)] else [])
   else [])

/-- Embedding of `fetchExplorerTxs` from `explorer.go`: perform the GET, fail on a
transport/status error or an unparseable body, and otherwise return the
response's transaction list unchanged. -/
def fetchExplorerTxs (_affiliate _lastAddr _lastMemo : String) (_count : Int)
    (o : HttpOutcome) : Except String (List ExplorerTx) :=
  match explorerGet o with
  | .error e => .error e
  | .ok .malformed => .error "json: cannot unmarshal"
  | .ok (.page txs) => .ok txs

/-! ### Log entries and the reporting filter (`wrapperpage.go`) -/

/-- Embedding of `LogEntry` as used by the reporting page: affiliate display name,
enriched transaction, computed fee (the buffer implementation lives outside
the provided sources; the record's fields are those read in
`wrapperpage.go`). -/
structure LogEntry where
  reseller : String
  tx : ExplorerTx
  feeUSD : ℚ
  deriving DecidableEq, Repr

/-- The filter closure of `handleWrapperLogs` (`wrapperpage.go`): reseller
equality fold, then — when a query is present — case-insensitive substring
match on recipient, deposit address, origin/destination token labels,
reseller name, or any NEAR transaction hash. -/
def wrapperLogFilter (table : List TokenInfo) (filterReseller query : String)
    (e : LogEntry) : Bool :=
  if filterReseller ≠ "" ∧ ¬ equalFold e.reseller filterReseller then false
  else if query ≠ "" then
    let q := goLower query
    if strContains (goLower e.tx.recipient) q
        || strContains (goLower e.tx.depositAddress) q
        || strContains (goLower (txTokenLabel table e.tx.originAsset)) q
        || strContains (goLower (txTokenLabel table e.tx.destinationAsset)) q
        || strContains (goLower e.reseller) q then true
    else e.tx.nearTxHashes.any (fun h => strContains (goLower h) q)
  else true

/-- The log filter as the specification words it (refinement comparison
definition, not source code): match case-insensitively on reseller name,
recipient, deposit address, asset labels, or any recorded chain transaction
hash — NEAR, origin-chain and destination-chain hashes alike. -/
def specLogFilterMatches (table : List TokenInfo) (query : String)
    (e : LogEntry) : Bool :=
  let q := goLower query
  strContains (goLower e.reseller) q
    || strContains (goLower e.tx.recipient) q
    || strContains (goLower e.tx.depositAddress) q
    || strContains (goLower (txTokenLabel table e.tx.originAsset)) q
    || strContains (goLower (txTokenLabel table e.tx.destinationAsset)) q
    || (e.tx.nearTxHashes ++ e.tx.originChainTxHashes ++
        e.tx.destinationChainTxHashes).any (fun h => strContains (goLower h) q)

/-- The amended description of the query part of the reporting filter
(comparison definition): case-insensitive substring match on reseller name,
recipient, deposit address, origin/destination token labels, or a NEAR
transaction hash — origin- and destination-chain hashes are not searched. -/
def amendedLogFilterMatches (table : List TokenInfo) (query : String)
    (e : LogEntry) : Bool :=
  let q := goLower query
  strContains (goLower e.reseller) q
    || strContains (goLower e.tx.recipient) q
    || strContains (goLower e.tx.depositAddress) q
    || strContains (goLower (txTokenLabel table e.tx.originAsset)) q
    || strContains (goLower (txTokenLabel table e.tx.destinationAsset)) q
    || e.tx.nearTxHashes.any (fun h => strContains (goLower h) q)

/-! ### Notifier helpers (`src/unnamed/part_002`) -/

/-- Walk reversed decimal digits inserting `,` before every third digit
(except at position zero). -/
def groupRevAux (i : ℕ) : List Char → List Char
  | [] => []
  | d :: ds =>
    if i ≠ 0 ∧ i % 3 = 0 then ',' :: d :: groupRevAux (i + 1) ds
    else d :: groupRevAux (i + 1) ds

/-- Group the (reversed) decimal digits of a number in threes with `,`. -/
def groupRevDigits (l : List Char) : List Char := groupRevAux 0 l

/-- Modelled from the spec: `formatCommas` renders an integer with
thousands separators (evidence: swap counter `#5,214` in the card footer and
`formatCommas(int64(swaps))` call sites). -/
def formatCommas (n : Int) : String :=
  let digits := (toString n.natAbs).data
  (if n < 0 then "-" else "") ++ ⟨(groupRevDigits digits.reverse).reverse⟩

/-- Render a number below 100 with two digits (`%02d`). -/
def pad2 (n : Int) : String :=
  if n < 10 then "0" ++ toString n else toString n

/-- Modelled from the spec: `formatUSD` renders a USD amount as `$` followed
by the comma-grouped dollars and two-digit cents (evidence: card header
`"$18.42 PROFIT"`, and `formatRate` in `handlers.go` strips a leading `$`
from `formatUSD` output). Only the leading dollar sign is load-bearing for
the claims below; the digit rendering is a faithful-shape model. -/
def formatUSD (q : ℚ) : String :=
  let c : Int := ⌊q * 100⌋
  "$" ++ formatCommas (c.ediv 100) ++ "." ++ pad2 (c.emod 100)

/-- Embedding of `updateMainChatDescription` from `src/unnamed/part_002`, as a pure
function of its environment: the configured main chat id and bot token, the
description fetched via `getChat` (`none` models a request or unmarshal
failure), and the current grand total. The result is the description posted
through `setChatDescription`, or `none` when the function returns without
posting. -/
def updateMainChatDescription (mainChatID : Int) (botToken : String)
    (fetched : Option String) (total : ℚ) : Option String :=
  if mainChatID = 0 ∨ botToken = "" then none
  else
    match fetched with
    | none => none
    | some desc =>
      if desc = "" then none
      else if ¬ strContains desc "$" then none
      else some (replaceFirst desc "$" (formatUSD total))

/-! ### UTC rendering (`monitorFormatTime`, `src/unnamed/part_002`)

`time.Unix(ts, 0).UTC()` is embedded by the standard proleptic-Gregorian
civil-from-days conversion (extensionally the computation Go's `time`
package performs), with Euclidean `Int` division giving the floor semantics
of a positive divisor. -/

/-- Days since 1970-01-01 → (year, month, day) in the proleptic Gregorian
calendar. -/
def civilFromDays (days : Int) : Int × Int × Int :=
  let z := days + 719468
  let era := z.ediv 146097
  let doe := z - era * 146097
  let yoe := (doe - doe.ediv 1460 + doe.ediv 36524 - doe.ediv 146096).ediv 365
  let y := yoe + era * 400
  let doy := doe - (365 * yoe + yoe.ediv 4 - yoe.ediv 100)
  let mp := (5 * doy + 2).ediv 153
  let d := doy - (153 * mp + 2).ediv 5 + 1
  let m := mp + (if mp < 10 then 3 else -9)
  (y + (if m ≤ 2 then 1 else 0), m, d)

/-- English month names, as produced by Go's `time.Month.String`. -/
def monthNames : List String :=
  ["January", "February", "March", "April", "May", "June", "July",
   "August", "September", "October", "November", "December"]

/-- Go `t.Month().String()` for month number `m` (1–12). -/
def monthName (m : Int) : String := monthNames.getD (m - 1).toNat ""

/-- The UTC calendar/clock fields Go reads off `time.Unix(ts, 0).UTC()`:
day of month, month, hour, minute. -/
def utcFields (ts : Int) : Int × Int × Int × Int :=
  let secs := ts.emod 86400
  let c := civilFromDays (ts.ediv 86400)
  (c.2.2, c.2.1, secs.ediv 3600, (secs.emod 3600).ediv 60)

/-- Embedding of `monitorFormatTime` from `src/unnamed/part_002`: `"unknown"` for a zero
timestamp, otherwise `"26 Feb · 02:41z"`-style UTC rendering
(`%d %s · %02d:%02dz` with the month name truncated to three bytes). -/
def monitorFormatTime (ts : Int) : String :=
  if ts = 0 then "unknown"
  else
    let f := utcFields ts
    toString f.1 ++ " " ++ (monthName f.2.1).take 3 ++ " · " ++
      pad2 f.2.2.1 ++ ":" ++ pad2 f.2.2.2 ++ "z"

/-! ### Cursor store and poll cycle (modelled)

The cursor store and poller loop are part of the monitoring core whose
implementation is not among the provided sources (only the spec describes
them, §4.2/§4.6). They are modelled from the spec for one affiliate — the
store is per-affiliate and single-writer, so one affiliate's state machine
captures the contract. -/

/-- Modelled from the spec: the per-affiliate poller state — the persisted
cursor, i.e. the last committed (deposit address, deposit memo) pair, with
`("", "")` the zero value requesting the oldest page, plus the sequences of
aggregation events and log-buffer appends committed so far. -/
structure PollState where
  cursor : String × String
  agg : List ExplorerTx
  log : List ExplorerTx
  deriving DecidableEq, Repr

/-- Modelled from the spec (§4.2, §4.6; the poller implementation is not
among the provided sources): one poll cycle for one affiliate. `feed` maps a
cursor to the page the source returns from it; `advanceOk` is whether cursor
persistence succeeds. The fetched page is first committed in full to the
aggregator and the log buffer; only then is the cursor advanced to the last
transaction of the page, and only when persistence succeeds — on failure the
cursor is left at its previous value so the page is not treated as
processed. -/
def pollCycle (feed : String × String → List ExplorerTx) (advanceOk : Bool)
    (s : PollState) : PollState :=
  let page := feed s.cursor
  match page.getLast? with
  | none => s
  | some lastTx =>
    let committed : PollState := ⟨s.cursor, s.agg ++ page, s.log ++ page⟩
    if advanceOk then
      { committed with cursor := (lastTx.depositAddress, lastTx.depositMemo) }
    else committed

/-! ### Bounded log buffer (modelled) -/

/-- The suffix of length at most `n` of a list (its newest `n` elements when
the list is ordered oldest-first). -/
def lastN (n : ℕ) (l : List α) : List α := l.drop (l.length - n)

/-- Modelled from the spec (§4.5; the ring implementation is not among the
provided sources): the fixed-capacity log ring, entries ordered oldest
first. -/
structure LogRing where
  capacity : ℕ
  entries : List LogEntry
  deriving Repr

/-- Modelled from the spec: append one entry, evicting the oldest entry once
capacity is reached. -/
def ringAppend (b : LogRing) (e : LogEntry) : LogRing :=
  ⟨b.capacity, lastN b.capacity (b.entries ++ [e])⟩

/-- Append a whole sequence of entries in order. -/
def ringAppendAll (b : LogRing) (es : List LogEntry) : LogRing :=
  es.foldl ringAppend b

/-- Modelled from the spec: snapshot the ring newest-first, filtered by a
predicate, stopping after `limit` matches. -/
def ringSnapshot (b : LogRing) (limit : ℕ) (p : LogEntry → Bool) : List LogEntry :=
  (b.entries.reverse.filter p).take limit

/-- An empty ring of a given capacity. -/
def ringEmpty (cap : ℕ) : LogRing := ⟨cap, []⟩

/-! ### Concrete sample data for witnesses and counterexamples -/

/-- A sample settled transaction: the spec's §8 scenario (USD notional 100,
basis points 30 + 20). -/
def sampleTx : ExplorerTx where
  depositAddress := "addr1"
  depositMemo := "memo1"
  recipient := "recv1"
  status := "SUCCESS"
  amountInFormatted := "0.05"
  amountOutFormatted := "99.5"
  amountInUsd := 100
  amountOutUsd := 99
  originAsset := "eth:0xabc"
  destinationAsset := "tron:usddcontract"
  senders := ["sender1"]
  nearTxHashes := ["NearHashOne"]
  originChainTxHashes := ["0xOriginHash"]
  destinationChainTxHashes := ["DestHashOne"]
  appFees := [⟨"feerecv", 30⟩, ⟨"feerecv2", 20⟩]
  createdAt := "2025-02-26T02:41:00Z"
  createdAtTimestamp := 1740537660

/-- A transaction with an empty fee schedule. -/
def zeroFeeTx : ExplorerTx := { sampleTx with appFees := [] }

/-- A non-success transaction as the explorer could return it in a page. -/
def pendingTx : ExplorerTx := { sampleTx with status := "PENDING" }

/-- A second distinct settled transaction. -/
def sampleTx2 : ExplorerTx :=
  { sampleTx with depositAddress := "addr2", depositMemo := "memo2", amountInUsd := 40 }

/-- A log entry whose destination asset is a `tron:`-namespace identifier
(token label and chain label both resolve to `TRON` when the token table
misses). -/
def tronEntry : LogEntry where
  reseller := "EagleSwap"
  tx := sampleTx
  feeUSD := 1

/-- A log entry with destination chain Ethereum and no text matching the
query `TRON` anywhere. -/
def ethEntry : LogEntry where
  reseller := "LizardSwap"
  tx := { sampleTx with
            depositAddress := "0xa77", depositMemo := "", recipient := "bc1qxyz",
            originAsset := "btc:native", destinationAsset := "eth:0xdef",
            senders := ["bc1qsender"], nearTxHashes := ["HashOne"],
            originChainTxHashes := ["BtcHash"], destinationChainTxHashes := ["0xEthHash"] }
  feeUSD := 2

/-- A log entry whose only occurrence of the query text `deadbeef` is inside
a recorded origin-chain transaction hash. -/
def hashOnlyEntry : LogEntry where
  reseller := "EagleSwap"
  tx := { sampleTx with
            originAsset := "sol:mint1", destinationAsset := "base:0x9",
            nearTxHashes := [], originChainTxHashes := ["0xDEADBEEFCAFE"],
            destinationChainTxHashes := [] }
  feeUSD := 3

/-- A concrete feed: one page of two transactions from the zero cursor,
nothing afterwards. -/
def feedW : String × String → List ExplorerTx :=
  fun c => if c = ("", "") then [sampleTx, sampleTx2] else []

/-- The initial poller state: zero-value cursor, nothing committed. -/
def s0 : PollState := ⟨("", ""), [], []⟩

/-- The fetch client's failure condition as the specification words it
(refinement comparison definition): network failure, non-2xx status, or
malformed body. -/
def specFetchFailCond (o : HttpOutcome) : Bool :=
  match o with
  | .netFail _ => true
  | .response st body =>
    decide (st < 200) || decide (300 ≤ st) ||
      (match body with | .malformed => true | .page _ => false)

/-! ## Claim theorems -/

/-- C2: for every transaction, `txFeeUSD` returns the transaction's USD
notional multiplied by the sum of all its fee-schedule basis points divided
by 10000, and returns exactly 0 whenever that basis-point sum is 0 or the
USD notional is 0. -/
theorem feeUSD_formula (tx : ExplorerTx) :
    txFeeUSD tx = tx.amountInUsd * (sumBps tx : ℚ) / 10000 ∧
    ((sumBps tx = 0 ∨ tx.amountInUsd = 0) → txFeeUSD tx = 0) := by
  constructor
  · by_cases h : sumBps tx = 0 ∨ tx.amountInUsd = 0
    · rcases h with h | h <;> simp [txFeeUSD, h]
    · simp [txFeeUSD, h]
  · intro h
    simp [txFeeUSD, h]

/-- Witness for C2 at the spec's §8 scenario: an empty fee schedule gives
fee 0, and 100 USD notional with summed basis points 30 + 20 = 50 gives
0.50 USD. -/
theorem feeUSD_formula_witness :
    txFeeUSD zeroFeeTx = 0 ∧ txFeeUSD sampleTx = 1 / 2 := by
  constructor
  · exact (feeUSD_formula zeroFeeTx).2 (Or.inl (by decide))
  · rw [(feeUSD_formula sampleTx).1]
    norm_num [sampleTx, sumBps]

/-- C9: an empty cursor address suppresses both cursor query parameters —
`lastDepositMemo` is omitted whenever `lastAddr` is empty even if
`lastMemo` is non-empty — and a cursor memo parameter is only ever present
together with its paired deposit-address parameter. -/
theorem fetchQuery_cursor_pairing (affiliate lastAddr lastMemo : String) (count : Int) :
    (lastAddr = "" →
      (∀ v, ("lastDepositAddress", v) ∉ fetchExplorerQuery affiliate lastAddr lastMemo count) ∧
      (∀ v, ("lastDepositMemo", v) ∉ fetchExplorerQuery affiliate lastAddr lastMemo count)) ∧
    (∀ v, ("lastDepositMemo", v) ∈ fetchExplorerQuery affiliate lastAddr lastMemo count →
      ("lastDepositAddress", lastAddr) ∈ fetchExplorerQuery affiliate lastAddr lastMemo count) := by
  constructor
  · intro h
    subst h
    refine ⟨fun v => ?_, fun v => ?_⟩ <;> simp [fetchExplorerQuery]
  · intro v hv
    by_cases ha : lastAddr = ""
    · subst ha
      simp [fetchExplorerQuery] at hv
    · simp [fetchExplorerQuery, ha]

/-- Witness for C9: with an empty cursor address and a non-empty memo, the
memo parameter is absent; with both present, the memo parameter implies the
address parameter. -/
theorem fetchQuery_cursor_pairing_witness :
    ("lastDepositMemo", "m1") ∉ fetchExplorerQuery "eagle" "" "m1" 100 ∧
    ("lastDepositAddress", "addr1") ∈ fetchExplorerQuery "eagle" "addr1" "m1" 100 :=
  ⟨((fetchQuery_cursor_pairing "eagle" "" "m1" 100).1 rfl).2 "m1",
   (fetchQuery_cursor_pairing "eagle" "addr1" "m1" 100).2 "m1" (by simp [fetchExplorerQuery])⟩

/-- C5: `fetchExplorerTxs` returns an error exactly when the HTTP request
fails, the response status is outside 2xx, or the body is unparseable JSON
(the spec's failure condition, `specFetchFailCond`); a transport error is
surfaced to the caller unmodified. The model performs the single HTTP
exchange its oracle argument describes, so no retry is possible. -/
theorem fetch_error_iff (a l m : String) (c : Int) (o : HttpOutcome) :
    ((∃ e, fetchExplorerTxs a l m c o = .error e) ↔ specFetchFailCond o = true) ∧
    (∀ msg, o = .netFail msg → fetchExplorerTxs a l m c o = .error msg) := by
  constructor
  · cases o with
    | netFail msg => simp [fetchExplorerTxs, explorerGet, specFetchFailCond]
    | response st body =>
      by_cases hst : st < 200 ∨ 300 ≤ st
      · have h1 : explorerGet (.response st body) = .error ("explorer " ++ toString st) := by
          simp [explorerGet, hst]
        cases body with
        | malformed => simp [fetchExplorerTxs, h1, specFetchFailCond]
        | page txs =>
          simp [fetchExplorerTxs, h1, specFetchFailCond]
          rcases hst with h | h <;> simp [h]
      · have h1 : explorerGet (.response st body) = .ok body := by
          simp [explorerGet, hst]
        have h2 : ¬ st < 200 := fun h => hst (Or.inl h)
        have h3 : ¬ 300 ≤ st := fun h => hst (Or.inr h)
        cases body <;> simp [fetchExplorerTxs, h1, specFetchFailCond, h2, h3]
  · intro msg h
    subst h
    rfl

/-- Witness for C5 at a concrete transport failure: the call errs with the
transport error text itself. -/
theorem fetch_error_iff_witness :
    fetchExplorerTxs "eagle" "" "" 100 (.netFail "dial tcp: i/o timeout") =
      .error "dial tcp: i/o timeout" :=
  (fetch_error_iff "eagle" "" "" 100 (.netFail "dial tcp: i/o timeout")).2
    "dial tcp: i/o timeout" rfl

/-- C4 counterexample: a 2xx response whose decoded page contains a
non-success transaction is returned as-is — the client does not validate
the settlement status of the records it returns. -/
theorem fetch_nonsuccess_passthrough_cex :
    fetchExplorerTxs "eagle" "" "" 100 (.response 200 (.page [pendingTx])) = .ok [pendingTx] ∧
    pendingTx.status ≠ "SUCCESS" := by
  constructor
  · rfl
  · decide

/-- C4 amended: the client requests only success-status transactions (it
always sends the `statuses=SUCCESS` query parameter), but it performs no
validation of the returned records — the returned list is exactly the
decoded page of the 2xx response. -/
theorem fetch_requests_success_no_validation (a l m : String) (c : Int)
    (o : HttpOutcome) (txs : List ExplorerTx) :
    ("statuses", "SUCCESS") ∈ fetchExplorerQuery a l m c ∧
    (fetchExplorerTxs a l m c o = .ok txs →
      ∃ st, ¬(st < 200 ∨ 300 ≤ st) ∧ o = .response st (.page txs)) := by
  constructor
  · simp [fetchExplorerQuery]
  · intro h
    cases o with
    | netFail msg => simp [fetchExplorerTxs, explorerGet] at h
    | response st body =>
      by_cases hst : st < 200 ∨ 300 ≤ st
      · simp [fetchExplorerTxs, explorerGet, hst] at h
      · cases body with
        | malformed => simp [fetchExplorerTxs, explorerGet, hst] at h
        | page txs' =>
          simp [fetchExplorerTxs, explorerGet, hst] at h
          exact ⟨st, hst, by rw [h]⟩

/-- Witness for C4's amended claim: the success-status parameter is present
and a 204 page is passed through unchanged. -/
theorem fetch_requests_success_no_validation_witness :
    ("statuses", "SUCCESS") ∈ fetchExplorerQuery "eagle" "" "" 100 ∧
    fetchExplorerTxs "eagle" "" "" 100 (.response 204 (.page [sampleTx])) = .ok [sampleTx] :=
  ⟨(fetch_requests_success_no_validation "eagle" "" "" 100
      (.response 204 (.page [sampleTx])) [sampleTx]).1, rfl⟩

/-- C10: `monitorFormatTime` returns the fixed string `"unknown"` for a
zero creation timestamp — so the notification card never renders a 1970
epoch date for a transaction lacking a timestamp — and otherwise renders
the UTC day, three-letter month, hour and minute. -/
theorem monitorFormatTime_zero_guard :
    monitorFormatTime 0 = "unknown" ∧
    strContains (monitorFormatTime 0) "1970" = false ∧
    (∀ ts : Int, ts ≠ 0 → monitorFormatTime ts =
      toString (utcFields ts).1 ++ " " ++ (monthName (utcFields ts).2.1).take 3 ++ " · " ++
        pad2 (utcFields ts).2.2.1 ++ ":" ++ pad2 (utcFields ts).2.2.2 ++ "z") ∧
    monitorFormatTime 1740537660 = "26 Feb · 02:41z" := by
  refine ⟨rfl, by decide, ?_, by decide⟩
  intro ts h
  simp [monitorFormatTime, h]

/-- Witness for C10 at the card comment's own example timestamp. -/
theorem monitorFormatTime_zero_guard_witness :
    monitorFormatTime 1740537660 =
      toString (utcFields 1740537660).1 ++ " " ++ (monthName (utcFields 1740537660).2.1).take 3 ++
        " · " ++ pad2 (utcFields 1740537660).2.2.1 ++ ":" ++ pad2 (utcFields 1740537660).2.2.2 ++ "z" :=
  monitorFormatTime_zero_guard.2.2.1 1740537660 (by decide)

/-- C3 counterexample: an entry whose only occurrence of the query text lies
in a recorded origin-chain transaction hash is matched by the filter as the
claim words it ("any recorded chain transaction hash"), but the reporting
page's filter excludes it — only NEAR transaction hashes are searched. -/
theorem logFilter_chain_hash_cex :
    specLogFilterMatches [] "deadbeef" hashOnlyEntry = true ∧
    wrapperLogFilter [] "" "deadbeef" hashOnlyEntry = false := by
  constructor
  · decide
  · decide

/-- C3 amended: the reporting filter matches case-insensitively on reseller
name, recipient, deposit address, origin/destination token labels, or any
recorded NEAR transaction hash (origin and destination chain hashes are not
searched); a query `TRON` returns the entry whose destination asset resolves
to label `TRON`, and excludes the Ethereum-destination entry with no
matching text elsewhere. -/
theorem logFilter_characterization (table : List TokenInfo) (fr q : String) (e : LogEntry) :
    (wrapperLogFilter table fr q e = true ↔
      ((fr = "" ∨ equalFold e.reseller fr = true) ∧
       (q = "" ∨ amendedLogFilterMatches table q e = true))) ∧
    wrapperLogFilter [] "" "TRON" tronEntry = true ∧
    wrapperLogFilter [] "" "TRON" ethEntry = false := by
  refine ⟨?_, by decide, by decide⟩
  simp only [wrapperLogFilter, amendedLogFilterMatches]
  split_ifs with h1 h2 h3
  · simp only [Bool.false_eq_true, false_iff]
    rintro ⟨hA, -⟩
    rcases hA with hA | hA
    · exact h1.1 hA
    · exact h1.2 hA
  · have hA : fr = "" ∨ equalFold e.reseller fr = true := by tauto
    simp only [Bool.or_eq_true, List.any_eq_true] at h3 ⊢
    exact iff_of_true (by trivial) ⟨hA, Or.inr (by tauto)⟩
  · have hA : fr = "" ∨ equalFold e.reseller fr = true := by tauto
    simp only [Bool.or_eq_true, List.any_eq_true] at h3 ⊢
    constructor
    · intro h
      exact ⟨hA, Or.inr (by tauto)⟩
    · rintro ⟨-, hB⟩
      rcases hB with hB | hB
      · exact absurd hB h2
      · tauto
  · have hA : fr = "" ∨ equalFold e.reseller fr = true := by tauto
    have hq : q = "" := by tauto
    exact iff_of_true (by trivial) ⟨hA, Or.inl hq⟩

/-- Witness for C3's amended characterization, instantiated at the TRON
scenario entry. -/
theorem logFilter_characterization_witness :
    wrapperLogFilter [] "" "TRON" tronEntry = true :=
  (logFilter_characterization [] "" "TRON" tronEntry).1.mpr ⟨Or.inl rfl, Or.inr (by decide)⟩

/-- A single-character needle is a substring exactly when the character
occurs in the haystack. -/
theorem hasSub_single_iff (c : Char) (l : List Char) : hasSub [c] l = true ↔ c ∈ l := by
  induction l with
  | nil => simp [hasSub]
  | cons b bs ih => simp [hasSub, leadsWith, ih]

/-- Replacing the first occurrence of a character by a replacement that
contains it leaves the character present. -/
theorem mem_replaceFirstL_single (c : Char) (new : List Char) (l : List Char)
    (hnew : c ∈ new) (hl : c ∈ l) : c ∈ replaceFirstL [c] new l := by
  induction l with
  | nil => cases hl
  | cons x xs ih =>
    by_cases hx : leadsWith [c] (x :: xs) = true
    · simp only [replaceFirstL]
      rw [if_pos hx]
      exact List.mem_append.mpr (Or.inl hnew)
    · simp only [replaceFirstL]
      rw [if_neg hx]
      have hcx : c ≠ x := by
        intro h
        exact hx (by simp [leadsWith, h])
      rcases List.mem_cons.mp hl with h | h
      · exact absurd h hcx
      · exact List.mem_cons.mpr (Or.inr (ih h))

/-- Every `formatUSD` rendering contains a dollar sign (it starts with one). -/
theorem formatUSD_has_dollar (total : ℚ) : strContains (formatUSD total) "$" = true :=
  (hasSub_single_iff '$' _).mpr (List.mem_cons_self _ _)

/-- Substituting the first `$` of a `$`-containing description by a
replacement that itself contains `$` yields a description that still
contains `$`. -/
theorem strContains_dollar_replaceFirst (d new : String)
    (hd : strContains d "$" = true) (hn : strContains new "$" = true) :
    strContains (replaceFirst d "$" new) "$" = true :=
  (hasSub_single_iff _ _).mpr
    (mem_replaceFirstL_single _ _ _ ((hasSub_single_iff _ _).mp hn)
      ((hasSub_single_iff _ _).mp hd))

/-- Concrete evaluation of the modelled `formatUSD` at 5 USD. -/
theorem formatUSD_five : formatUSD 5 = "$5.00" := by
  have h : (⌊(5 : ℚ) * 100⌋ : ℤ) = 500 := by norm_num
  simp only [formatUSD, h]
  decide

/-- C6 counterexample: `updateMainChatDescription` is not idempotent — the
substituted total itself begins with `$`, so a second call on the rewritten
description substitutes again and mangles it instead of doing nothing. -/
theorem updateDescription_not_idempotent_cex :
    updateMainChatDescription 1 "bottok" (some "Total swapped: $ so far") 5 =
      some "Total swapped: $5.00 so far" ∧
    updateMainChatDescription 1 "bottok" (some "Total swapped: $5.00 so far") 5 =
      some "Total swapped: $5.005.00 so far" ∧
    ("Total swapped: $5.005.00 so far" : String) ≠ "Total swapped: $5.00 so far" := by
  refine ⟨?_, ?_, by decide⟩ <;>
    · simp only [updateMainChatDescription]
      rw [formatUSD_five]
      decide

/-- C6 amended: `updateMainChatDescription` substitutes the first `$` of the
fetched description with the formatted grand total only when a `$` is
present, and does nothing when the chat id or bot token is unset, the fetch
fails, or the description is empty or lacks `$`; it is not idempotent: the
substituted total begins with `$`, so the rewritten description still
contains `$` and a repeated call substitutes again. -/
theorem updateDescription_guarded_rewrite (chatID : Int) (tok d : String) (total : ℚ) :
    (updateMainChatDescription 0 tok (some d) total = none) ∧
    (updateMainChatDescription chatID "" (some d) total = none) ∧
    (updateMainChatDescription chatID tok none total = none) ∧
    (strContains d "$" = false → updateMainChatDescription chatID tok (some d) total = none) ∧
    (strContains (formatUSD total) "$" = true) ∧
    (chatID ≠ 0 → tok ≠ "" → strContains d "$" = true →
      updateMainChatDescription chatID tok (some d) total =
        some (replaceFirst d "$" (formatUSD total)) ∧
      strContains (replaceFirst d "$" (formatUSD total)) "$" = true) := by
  refine ⟨?_, ?_, ?_, ?_, formatUSD_has_dollar total, ?_⟩
  · simp [updateMainChatDescription]
  · simp [updateMainChatDescription]
  · simp [updateMainChatDescription]
  · intro h
    simp only [updateMainChatDescription]
    by_cases h0 : chatID = 0 ∨ tok = ""
    · rw [if_pos h0]
    · rw [if_neg h0]
      by_cases hdne : d = ""
      · rw [if_pos hdne]
      · rw [if_neg hdne, if_pos (by simp [h])]
  · intro h0 htok hd
    have hne : ¬(chatID = 0 ∨ tok = "") := by tauto
    have hdne : d ≠ "" := by
      intro h
      subst h
      simp [strContains, hasSub] at hd
    refine ⟨?_, strContains_dollar_replaceFirst d (formatUSD total) hd (formatUSD_has_dollar total)⟩
    simp only [updateMainChatDescription]
    rw [if_neg hne, if_neg hdne, if_neg (by simp [hd])]

/-- Witness for C6's amended claim at concrete inputs: a description without
`$` is left alone; one with `$` is rewritten and still contains `$`. -/
theorem updateDescription_guarded_rewrite_witness :
    updateMainChatDescription 7 "bottok" (some "no placeholder here") 5 = none ∧
    (updateMainChatDescription 7 "bottok" (some "Total: $") 5 =
      some (replaceFirst "Total: $" "$" (formatUSD 5)) ∧
     strContains (replaceFirst "Total: $" "$" (formatUSD 5)) "$" = true) :=
  ⟨(updateDescription_guarded_rewrite 7 "bottok" "no placeholder here" 5).2.2.2.1 (by decide),
   (updateDescription_guarded_rewrite 7 "bottok" "Total: $" 5).2.2.2.2.2
     (by decide) (by decide) (by decide)⟩

/-- C1: a poll cycle commits the fetched page to the aggregator and the log
buffer in full before any cursor movement; the cursor either stays put or
moves exactly to the key of the page's last (already aggregated)
transaction, never elsewhere and never on a failed persistence; and after a
failed cursor advance the same page is re-fetched from the unchanged cursor
and re-aggregated on the next run (at-least-once, nothing skipped). -/
theorem pollCycle_at_least_once (feed : String × String → List ExplorerTx)
    (adv : Bool) (s : PollState) :
    (∀ t ∈ feed s.cursor, t ∈ (pollCycle feed adv s).agg ∧ t ∈ (pollCycle feed adv s).log) ∧
    ((pollCycle feed adv s).cursor = s.cursor ∨
      (adv = true ∧ ∃ lastTx, (feed s.cursor).getLast? = some lastTx ∧
        (pollCycle feed adv s).cursor = (lastTx.depositAddress, lastTx.depositMemo) ∧
        lastTx ∈ (pollCycle feed adv s).agg)) ∧
    (adv = false →
      (pollCycle feed adv s).cursor = s.cursor ∧
      (pollCycle feed adv s).agg = s.agg ++ feed s.cursor ∧
      (pollCycle feed adv s).log = s.log ++ feed s.cursor) ∧
    (pollCycle feed true (pollCycle feed false s)).agg =
      s.agg ++ feed s.cursor ++ feed s.cursor := by
  cases hl : (feed s.cursor).getLast? with
  | none =>
    have hnil : feed s.cursor = [] := List.getLast?_eq_none_iff.mp hl
    have hpc : pollCycle feed adv s = s := by simp [pollCycle, hl]
    have hpcF : pollCycle feed false s = s := by simp [pollCycle, hl]
    have hpcT : pollCycle feed true s = s := by simp [pollCycle, hl]
    refine ⟨?_, Or.inl (by rw [hpc]), ?_, ?_⟩
    · intro t ht
      rw [hnil] at ht
      cases ht
    · intro _
      rw [hpc]
      simp [hnil]
    · rw [hpcF, hpcT]
      simp [hnil]
  | some lastTx =>
    have hmem : lastTx ∈ feed s.cursor := by
      obtain ⟨hne, heq⟩ := List.mem_getLast?_eq_getLast (Option.mem_def.mpr hl)
      rw [heq]
      exact List.getLast_mem hne
    have hfalse : pollCycle feed false s =
        ⟨s.cursor, s.agg ++ feed s.cursor, s.log ++ feed s.cursor⟩ := by
      simp [pollCycle, hl]
    have hdouble : (pollCycle feed true (pollCycle feed false s)).agg =
        s.agg ++ feed s.cursor ++ feed s.cursor := by
      rw [hfalse]
      simp [pollCycle, hl]
    cases adv with
    | false =>
      refine ⟨?_, Or.inl (by rw [hfalse]), fun _ => ⟨by rw [hfalse], by rw [hfalse], by rw [hfalse]⟩,
        hdouble⟩
      intro t ht
      rw [hfalse]
      exact ⟨List.mem_append.mpr (Or.inr ht), List.mem_append.mpr (Or.inr ht)⟩
    | true =>
      have htrue : pollCycle feed true s =
          ⟨(lastTx.depositAddress, lastTx.depositMemo),
            s.agg ++ feed s.cursor, s.log ++ feed s.cursor⟩ := by
        simp [pollCycle, hl]
      refine ⟨?_, Or.inr ⟨rfl, lastTx, rfl, by rw [htrue], ?_⟩, ?_, hdouble⟩
      · intro t ht
        rw [htrue]
        exact ⟨List.mem_append.mpr (Or.inr ht), List.mem_append.mpr (Or.inr ht)⟩
      · rw [htrue]
        exact List.mem_append.mpr (Or.inr hmem)
      · intro h
        cases h

/-- Witness for C1 at a concrete feed and initial state: a failed cursor
persistence leaves the cursor unchanged while the page is still committed to
the aggregator and the log. -/
theorem pollCycle_at_least_once_witness :
    (pollCycle feedW false s0).cursor = s0.cursor ∧
    (pollCycle feedW false s0).agg = s0.agg ++ feedW s0.cursor ∧
    (pollCycle feedW false s0).log = s0.log ++ feedW s0.cursor :=
  (pollCycle_at_least_once feedW false s0).2.2.1 rfl

/-- Dropping to a suffix shorter than the bound is the identity. -/
theorem lastN_of_le (n : ℕ) (l : List α) (h : l.length ≤ n) : lastN n l = l := by
  simp [lastN, Nat.sub_eq_zero_of_le h]

/-- The retained suffix never exceeds the bound in length. -/
theorem lastN_length_le (n : ℕ) (l : List α) : (lastN n l).length ≤ n := by
  simp only [lastN, List.length_drop]
  omega

/-- Trimming before appending one element agrees with trimming after. -/
theorem lastN_append_one (n : ℕ) (l : List α) (e : α) :
    lastN n (lastN n l ++ [e]) = lastN n (l ++ [e]) := by
  by_cases h : l.length ≤ n
  · rw [lastN_of_le n l h]
  · push_neg at h
    have h1 : (l.drop (l.length - n)).length = n := by
      rw [List.length_drop]
      omega
    have h2 : (l.drop (l.length - n) ++ [e]).length - n = 1 := by
      simp [h1]
    have h3 : (l ++ [e]).length - n = (l.length - n) + 1 := by
      simp
      omega
    unfold lastN
    rw [h2, h3, ← List.drop_append_of_le_length (show l.length - n ≤ l.length by omega),
      List.drop_drop]

/-- Trimming an already-trimmed prelist before appending agrees with
trimming the untrimmed concatenation. -/
theorem lastN_absorb (n : ℕ) (x es : List α) :
    lastN n (lastN n x ++ es) = lastN n (x ++ es) := by
  induction es generalizing x with
  | nil =>
    rw [List.append_nil, List.append_nil]
    exact lastN_of_le n (lastN n x) (lastN_length_le n x)
  | cons e es ih =>
    have h1 : lastN n x ++ e :: es = (lastN n x ++ [e]) ++ es := by simp
    have h2 : x ++ e :: es = (x ++ [e]) ++ es := by simp
    rw [h1, h2, ← ih (lastN n x ++ [e]), lastN_append_one]
    exact ih (x ++ [e])

/-- Folding a sequence of appends into the ring retains exactly the newest
`capacity` elements of the whole insertion sequence. -/
theorem ringAppendAll_entries (cap : ℕ) (l es : List LogEntry) (h : l.length ≤ cap) :
    (ringAppendAll ⟨cap, l⟩ es).entries = lastN cap (l ++ es) := by
  induction es generalizing l with
  | nil =>
    rw [List.append_nil]
    exact (lastN_of_le cap l h).symm ▸ rfl
  | cons e es ih =>
    have hstep : ringAppendAll ⟨cap, l⟩ (e :: es) =
        ringAppendAll ⟨cap, lastN cap (l ++ [e])⟩ es := rfl
    rw [hstep, ih _ (lastN_length_le _ _), lastN_absorb]
    congr 1
    simp

/-- C7: after appending `capacity + k` entries (`k > 0`) to an empty ring, a
full snapshot returns exactly `capacity` entries, newest first (the reverse
of the insertion-order suffix), and the `k` oldest entries are absent. -/
theorem ring_capacity_eviction (cap k : ℕ) (es : List LogEntry)
    (_hk : 0 < k) (hlen : es.length = cap + k) (hnd : es.Nodup) :
    ringSnapshot (ringAppendAll (ringEmpty cap) es) (cap + k) (fun _ => true) =
      (es.drop k).reverse ∧
    (ringSnapshot (ringAppendAll (ringEmpty cap) es) (cap + k) (fun _ => true)).length = cap ∧
    (∀ e ∈ es.take k,
      e ∉ ringSnapshot (ringAppendAll (ringEmpty cap) es) (cap + k) (fun _ => true)) := by
  have hent : (ringAppendAll (ringEmpty cap) es).entries = es.drop k := by
    have h0 := ringAppendAll_entries cap [] es (by simp)
    simp only [List.nil_append] at h0
    have h1 : lastN cap es = es.drop k := by
      unfold lastN
      rw [hlen]
      congr 1
      omega
    exact h0.trans h1
  have hsnap : ringSnapshot (ringAppendAll (ringEmpty cap) es) (cap + k) (fun _ => true) =
      (es.drop k).reverse := by
    unfold ringSnapshot
    rw [hent]
    rw [List.filter_true]
    apply List.take_of_length_le
    simp [hlen]
  refine ⟨hsnap, ?_, ?_⟩
  · rw [hsnap]
    simp only [List.length_reverse, List.length_drop, hlen]
    omega
  · intro e he hmem
    rw [hsnap] at hmem
    exact (List.disjoint_take_drop hnd le_rfl) he (List.mem_reverse.mp hmem)

/-- Witness for C7 at capacity 2 with three distinct entries: the snapshot
is the newest two entries newest-first and the oldest entry is gone. -/
theorem ring_capacity_eviction_witness :
    ringSnapshot (ringAppendAll (ringEmpty 2) [tronEntry, ethEntry, hashOnlyEntry]) 3
      (fun _ => true) = ([tronEntry, ethEntry, hashOnlyEntry].drop 1).reverse ∧
    tronEntry ∉ ringSnapshot (ringAppendAll (ringEmpty 2) [tronEntry, ethEntry, hashOnlyEntry]) 3
      (fun _ => true) :=
  ⟨(ring_capacity_eviction 2 1 [tronEntry, ethEntry, hashOnlyEntry]
      (by decide) (by decide) (by decide)).1,
   (ring_capacity_eviction 2 1 [tronEntry, ethEntry, hashOnlyEntry]
      (by decide) (by decide) (by decide)).2.2 tronEntry (by decide)⟩

/-- Splitting at a character that does not occur yields nothing. -/
theorem splitFirst_of_not_mem (c : Char) (l : List Char) (h : c ∉ l) :
    splitFirst c l = none := by
  induction l with
  | nil => rfl
  | cons x xs ih =>
    rw [List.mem_cons, not_or] at h
    simp only [splitFirst]
    rw [if_neg (by simp only [beq_iff_eq]; exact fun he => h.1 he.symm), ih h.2]

/-- Splitting around the first occurrence of the separator recovers the two
surrounding segments. -/
theorem splitFirst_append_cons (c : Char) (p rest : List Char) (hp : c ∉ p) :
    splitFirst c (p ++ c :: rest) = some (p, rest) := by
  induction p with
  | nil => simp [splitFirst]
  | cons x xs ih =>
    rw [List.mem_cons, not_or] at hp
    simp only [List.cons_append, splitFirst]
    rw [if_neg (by simp only [beq_iff_eq]; exact fun he => hp.1 he.symm)]
    rw [List.append_eq, ih hp.2]

/-- C8: `txTokenLabel` and `txChainLabel` first consult the known-token
table by exact identifier (ticker and chain display name respectively);
on a miss the chain label goes through the static chain code table applied
to the segment before `:`, and the token label falls back to the uppercased
segment before `:` — except for `nep141` identifiers, whose token label is
the uppercased ticker segment before the first `.` of the part after `:` —
or the whole identifier uppercased when no `:` is present; the chain table
defaults to the uppercased code on unknown codes. -/
theorem labelResolver_spec :
    (∀ table assetID t, findTokenByAssetID table assetID = some t →
      (t.ticker ≠ "" → txTokenLabel table assetID = t.ticker) ∧
      (t.chainName ≠ "" → txChainLabel table assetID = explorerChainName t.chainName)) ∧
    (∀ table assetID, findTokenByAssetID table assetID = none →
      txTokenLabel table assetID = tokenLabelHeur assetID ∧
      txChainLabel table assetID = explorerChainName ⟨upToChar ':' assetID.data⟩) ∧
    (∀ p rest : List Char, ':' ∉ p →
      upToChar ':' (p ++ ':' :: rest) = p ∧
      (p.map Char.toUpper ≠ "NEP141".data →
        tokenLabelHeur ⟨p ++ ':' :: rest⟩ = ⟨p.map Char.toUpper⟩) ∧
      (p.map Char.toUpper = "NEP141".data →
        tokenLabelHeur ⟨p ++ ':' :: rest⟩ = ⟨(upToChar '.' rest).map Char.toUpper⟩)) ∧
    (∀ l : List Char, ':' ∉ l →
      tokenLabelHeur ⟨l⟩ = goUpper ⟨l⟩ ∧ upToChar ':' l = l) ∧
    (explorerChainName "eth" = "Ethereum" ∧ explorerChainName "tron" = "TRON" ∧
      explorerChainName "zec" = "ZEC") := by
  refine ⟨?_, ?_, ?_, ?_, by decide, by decide, by decide⟩
  · intro table assetID t h
    constructor
    · intro ht
      simp [txTokenLabel, h, ht]
    · intro hc
      simp [txChainLabel, h, hc]
  · intro table assetID h
    exact ⟨by simp [txTokenLabel, h], by simp [txChainLabel, h, chainLabelHeur]⟩
  · intro p rest hp
    refine ⟨?_, ?_, ?_⟩
    · simp [upToChar, splitFirst_append_cons ':' p rest hp]
    · intro hne
      simp [tokenLabelHeur, splitFirst_append_cons ':' p rest hp, hne]
    · intro heq
      simp [tokenLabelHeur, splitFirst_append_cons ':' p rest hp, heq]
  · intro l h
    exact ⟨by simp [tokenLabelHeur, splitFirst_of_not_mem ':' l h, goUpper],
      by simp [upToChar, splitFirst_of_not_mem ':' l h]⟩

/-- Witness for C8: an exact table hit resolves ticker and chain name; a
miss on a `tron:`-namespace identifier uppercases the prefix. -/
theorem labelResolver_spec_witness :
    txTokenLabel [⟨"x:y", "USDT", "tron"⟩] "x:y" = "USDT" ∧
    txChainLabel [⟨"x:y", "USDT", "tron"⟩] "x:y" = explorerChainName "tron" ∧
    tokenLabelHeur ⟨"tron".data ++ ':' :: "usdd".data⟩ = ⟨"tron".data.map Char.toUpper⟩ :=
  ⟨(labelResolver_spec.1 _ "x:y" ⟨"x:y", "USDT", "tron"⟩ (by decide)).1 (by decide),
   (labelResolver_spec.1 _ "x:y" ⟨"x:y", "USDT", "tron"⟩ (by decide)).2 (by decide),
   (labelResolver_spec.2.2.1 "tron".data "usdd".data (by decide)).2.1 (by decide)⟩

end USwap
